import Mathlib

/-!
Verification of the answer-checking / progress-tracking core of the
`german_vocab` trainer.  The definitions below are a shallow embedding of
the canonical revision `src/vocab.py` (the spec adopts this revision's
behaviour as canonical; the older `src/streamlit.py` revision differs).

Strings are handled at the level of `List Char` so that every operation is
executable and kernel-decidable.  `Char.toLower` / `Char.isWhitespace`
model Python's `str.lower()` / whitespace class (faithful on the ASCII
range that the matching logic manipulates).
-/

namespace GermanVocab

/-! ### Models of the Python string primitives used by `check_answer` -/

/-- Model of Python `s.strip()`: drop whitespace from both ends. -/
def trimL (s : List Char) : List Char :=
  ((s.dropWhile Char.isWhitespace).reverse.dropWhile Char.isWhitespace).reverse

/-- Model of the Python idiom `s.lower().strip()` applied throughout
`check_answer` (vocab.py lines 72, 76-78). -/
def pyLowerStrip (s : String) : List Char :=
  trimL (s.data.map Char.toLower)

/-- Split a character list at every whitespace character, keeping the
(possibly empty) fragments.  Helper for `splitWS`. -/
def splitChar : List Char → List (List Char)
  | [] => [[]]
  | c :: cs =>
    match splitChar cs with
    | [] => [[]]
    | t :: ts =>
      if c.isWhitespace then [] :: t :: ts
      else (c :: t) :: ts

/-- Model of Python `s.split()` (no separator argument): maximal runs of
non-whitespace characters, with no empty tokens. -/
def splitWS (s : List Char) : List (List Char) :=
  (splitChar s).filter (fun t => decide (t ≠ []))

/-- `tokens = transcript.lower().strip().split()` (vocab.py lines 72-73). -/
def tokenize (s : String) : List (List Char) :=
  splitWS (pyLowerStrip s)

/-- Model of the sliding-window loop
`for i in range(len(toks) - len(pat) + 1): if toks[i:i+len(pat)] == pat`
(vocab.py lines 109-113 and 120-124).  With `pat` longer than `toks` the
single window inspected is shorter than `pat`, so the result is `false`,
exactly as Python's empty `range`. -/
def slidingMatch {α : Type} [DecidableEq α] (toks pat : List α) : Bool :=
  (List.range (toks.length - pat.length + 1)).any
    (fun i => decide ((toks.drop i).take pat.length = pat))

/-- The specification-side notion of a contiguous token run: `pat` occurs
as an unbroken run inside `toks`, at any offset. -/
def isContigRun {α : Type} (pat toks : List α) : Prop :=
  ∃ u v, toks = u ++ pat ++ v

/-- Model of Python `s.startswith(pre)` on character lists. -/
def startsWithL (s pre : List Char) : Bool :=
  pre.isPrefixOf s

/-- Model of Python substring containment `needle in hay`. -/
def containsSub (hay needle : String) : Bool :=
  slidingMatch hay.data needle.data

/-! ### The vocabulary entry and `check_answer` (vocab.py lines 71-126) -/

/-- The fields of a vocabulary entry that the core logic reads.
(The JSON entries also carry `meaning`, `examples`, `set`, `source_file`,
which only the display layer uses.) -/
structure VocabEntry where
  word : String
  pos : String
  gender : String
  plural : String
deriving DecidableEq

/-- `parts = word.split()` for the verb branch (vocab.py line 84),
with `word = entry["word"].lower().strip()`. -/
def wordParts (e : VocabEntry) : List (List Char) :=
  splitWS (pyLowerStrip e.word)

/-- `singular_tokens = f"{gender} {word}".strip().split()`
(vocab.py lines 103-104). -/
def singularTokens (e : VocabEntry) : List (List Char) :=
  splitWS (trimL (pyLowerStrip e.gender ++ ' ' :: pyLowerStrip e.word))

/-- `plural.split()` for the plural check (vocab.py line 105). -/
def pluralTokens (e : VocabEntry) : List (List Char) :=
  splitWS (pyLowerStrip e.plural)

/-- Shallow embedding of `check_answer(entry, transcript)`
(vocab.py lines 71-126).  Branches, in source order:
verbs (line 83), adjectives/adverbs (line 90), non-noun fallback
(line 96), then strict noun matching (lines 103-126) with the
uncountable sentinel test (line 116). -/
def check_answer (entry : VocabEntry) (transcript : String) : Bool :=
  if entry.pos = "verb" ∨ entry.pos = "reflexive verb" then
    (wordParts entry).all (fun p => decide (p ∈ tokenize transcript))
  else if containsSub entry.pos "adjective" || containsSub entry.pos "adverb" then
    decide (pyLowerStrip entry.word ∈ tokenize transcript)
  else if startsWithL entry.pos.data "noun".data = false then
    decide (pyLowerStrip entry.word ∈ tokenize transcript)
  else if pyLowerStrip entry.plural = [] ∨ pyLowerStrip entry.plural = "—".data then
    slidingMatch (tokenize transcript) (singularTokens entry)
  else
    slidingMatch (tokenize transcript) (singularTokens entry)
      && slidingMatch (tokenize transcript)
          (if pyLowerStrip entry.plural = [] then [] else pluralTokens entry)

/-! ### Progress tracking (vocab.py lines 148-154 and 378-470) -/

/-- The per-grouping-key progress record
`{"reviewed": set(), "correct": 0, "wrong": 0, "mistakes": []}`
(vocab.py lines 149-154).  The Python `set` is modelled as a list to
which a word is added only when absent, so its length is the set's
cardinality; the counters are Python integers, hence `Int`. -/
structure ProgressState where
  reviewed : List String
  correct : Int
  wrong : Int
  mistakes : List String
deriving DecidableEq

/-- The zeroed state installed on first access to a grouping key. -/
def ProgressState.init : ProgressState := ⟨[], 0, 0, []⟩

/-- One evaluation of a word: the progress-update block of vocab.py
lines 378-408 and 445.  `first_time = word not in reviewed` (line 378);
a counter is bumped only when `first_time` (lines 390-391, 404-405);
`mistakes.remove` runs under an `in` guard (lines 393-394), `append`
under a `not in` guard (lines 407-408); `reviewed.add` is unconditional
(line 445). -/
def recordAttempt (p : ProgressState) (w : String) (isCorrect : Bool) : ProgressState :=
  if isCorrect then
    { reviewed := if w ∈ p.reviewed then p.reviewed else w :: p.reviewed
      correct := if w ∈ p.reviewed then p.correct else p.correct + 1
      wrong := p.wrong
      mistakes := if w ∈ p.mistakes then p.mistakes.erase w else p.mistakes }
  else
    { reviewed := if w ∈ p.reviewed then p.reviewed else w :: p.reviewed
      correct := p.correct
      wrong := if w ∈ p.reviewed then p.wrong else p.wrong + 1
      mistakes := if w ∈ p.mistakes then p.mistakes else p.mistakes ++ [w] }

/-- The "Mark as Correct (ASR error)" override (vocab.py lines 449-457):
using the stored `was_first_time` flag it undoes the wrong count and
credits a correct one, and removes the word from `mistakes` (the queue
removal of lines 460-462 is modelled by `List.erase` on the queue,
see `reviewQueueStep`). -/
def markAsCorrect (p : ProgressState) (w : String) (wasFirstTime : Bool) : ProgressState :=
  { reviewed := p.reviewed
    correct := if wasFirstTime then p.correct + 1 else p.correct
    wrong := if wasFirstTime then p.wrong - 1 else p.wrong
    mistakes := if w ∈ p.mistakes then p.mistakes.erase w else p.mistakes }

/-- Effect of one attempt on the Review-Mistakes queue (vocab.py lines
396-398 for a correct answer: guarded `review_queue.remove`; lines
411-417 for a wrong answer: `pop` at the word's first index followed by
`append`, i.e. move the word to the back). -/
def reviewQueueStep (queue : List String) (w : String) (isCorrect : Bool) : List String :=
  if isCorrect then
    if w ∈ queue then queue.erase w else queue
  else
    if w ∈ queue then queue.erase w ++ [w] else queue

/-- The two session modes of the sidebar selector. -/
inductive Mode
  | study
  | review
deriving DecidableEq

/-- Shallow embedding of `pick_new_word()` (vocab.py lines 286-302).
`random.choice(remaining)` is modelled by indexing with an arbitrary
seed `n` modulo the length, covering every choice the code can make.
In review mode the front of the queue is looked up in the filtered
vocabulary with `next(...)` and **no default**, so a missing word raises
`StopIteration`, modelled as `Except.error ()`. -/
def pick_new_word (mode : Mode) (n : Nat) (filtered : List VocabEntry)
    (reviewed : List String) (queue : List String) : Except Unit (Option VocabEntry) :=
  match mode with
  | .study =>
    let remaining := filtered.filter (fun v => decide (v.word ∉ reviewed))
    if remaining.isEmpty then Except.ok none
    else Except.ok (remaining.get? (n % remaining.length))
  | .review =>
    match queue with
    | [] => Except.ok none
    | w :: _ =>
      match filtered.find? (fun v => decide (v.word = w)) with
      | some v => Except.ok (some v)
      | none => Except.error ()

/-- A whole-session operation on a grouping key's progress record:
either an evaluation of a word or the "Mark as Correct" override. -/
inductive SessionOp
  | attempt (w : String) (isCorrect : Bool)
  | override (w : String) (wasFirstTime : Bool)

/-- Apply one session operation. -/
def applyOp (p : ProgressState) : SessionOp → ProgressState
  | .attempt w b => recordAttempt p w b
  | .override w ft => markAsCorrect p w ft

/-- Run a sequence of session operations from the zeroed initial state. -/
def runOps (ops : List SessionOp) : ProgressState :=
  ops.foldl applyOp ProgressState.init

/-- Run a sequence of plain attempts from the zeroed initial state. -/
def runAttempts (ops : List (String × Bool)) : ProgressState :=
  ops.foldl (fun p ab => recordAttempt p ab.1 ab.2) ProgressState.init

/-! ### Helper lemmas about the tokenization primitives -/

/-- The sliding-window loop decides exactly the contiguous-run property. -/
theorem slidingMatch_iff {α : Type} [DecidableEq α] (toks pat : List α) :
    slidingMatch toks pat = true ↔ isContigRun pat toks := by
  rw [slidingMatch, List.any_eq_true]
  constructor
  · rintro ⟨i, -, hdec⟩
    rw [decide_eq_true_eq] at hdec
    refine ⟨toks.take i, (toks.drop i).drop pat.length, ?_⟩
    conv_lhs => rw [← List.take_append_drop i toks,
      ← List.take_append_drop pat.length (toks.drop i)]
    rw [hdec, ← List.append_assoc]
  · rintro ⟨u, v, rfl⟩
    refine ⟨u.length, ?_, ?_⟩
    · rw [List.mem_range]
      simp only [List.length_append]
      omega
    · rw [decide_eq_true_eq, List.append_assoc, List.drop_left]
      exact List.take_left pat v

theorem splitChar_ne_nil (l : List Char) : splitChar l ≠ [] := by
  cases l with
  | nil => simp [splitChar]
  | cons c cs =>
    rw [splitChar]
    cases hsc : splitChar cs with
    | nil => simp
    | cons t ts =>
      dsimp only
      split <;> simp

theorem splitWS_cons_ws {c : Char} (cs : List Char) (hc : c.isWhitespace = true) :
    splitWS (c :: cs) = splitWS cs := by
  unfold splitWS
  rw [splitChar]
  cases hsc : splitChar cs with
  | nil => exact absurd hsc (splitChar_ne_nil cs)
  | cons t ts =>
    dsimp only
    rw [if_pos hc]
    simp [List.filter_cons]

theorem splitWS_cons_not_ws {c : Char} (cs : List Char) (hc : c.isWhitespace = false) :
    ∃ t ts, splitWS (c :: cs) = (c :: t) :: ts := by
  unfold splitWS
  rw [splitChar]
  cases hsc : splitChar cs with
  | nil => exact absurd hsc (splitChar_ne_nil cs)
  | cons t ts =>
    refine ⟨t, ts.filter (fun u => decide (u ≠ [])), ?_⟩
    dsimp only
    rw [if_neg (by simp [hc])]
    simp [List.filter_cons]

/-- A character list splits into no tokens exactly when it is all whitespace. -/
theorem splitWS_eq_nil_iff (l : List Char) :
    splitWS l = [] ↔ ∀ c ∈ l, c.isWhitespace = true := by
  induction l with
  | nil => simp [splitWS, splitChar]
  | cons c cs ih =>
    by_cases hc : c.isWhitespace
    · rw [splitWS_cons_ws cs hc, ih]
      constructor
      · intro h x hx
        rcases List.mem_cons.mp hx with rfl | hx
        · exact hc
        · exact h x hx
      · intro h x hx
        exact h x (List.mem_cons_of_mem c hx)
    · obtain ⟨t, ts, heq⟩ := splitWS_cons_not_ws cs (by simpa using hc)
      rw [heq]
      constructor
      · intro h
        exact absurd h (List.cons_ne_nil _ _)
      · intro h
        exact absurd (h c (List.mem_cons_self c cs)) (by simpa using hc)

/-- A non-empty stripped string still yields at least one token. -/
theorem splitWS_trimL_ne_nil (y : List Char) (h : trimL y ≠ []) :
    splitWS (trimL y) ≠ [] := by
  intro hnil
  have hall := (splitWS_eq_nil_iff (trimL y)).mp hnil
  have hd2 : (y.dropWhile Char.isWhitespace).reverse.dropWhile Char.isWhitespace ≠ [] := by
    intro h0
    apply h
    unfold trimL
    rw [h0]
    rfl
  have hhead := List.head_dropWhile_not Char.isWhitespace
    (y.dropWhile Char.isWhitespace).reverse hd2
  have hmem : ((y.dropWhile Char.isWhitespace).reverse.dropWhile Char.isWhitespace).head hd2
      ∈ trimL y := by
    unfold trimL
    rw [List.mem_reverse]
    exact List.head_mem hd2
  rw [hall _ hmem] at hhead
  exact absurd hhead (by simp)

/-- On an empty token list the sliding window matches only the empty pattern. -/
theorem slidingMatch_nil_iff {α : Type} [DecidableEq α] (pat : List α) :
    slidingMatch [] pat = true ↔ pat = [] := by
  rw [slidingMatch_iff]
  constructor
  · rintro ⟨u, v, h⟩
    rcases u with _ | ⟨a, u⟩
    · rcases pat with _ | ⟨b, p⟩
      · rfl
      · simp at h
    · simp at h
  · rintro rfl
    exact ⟨[], [], rfl⟩

/-- Erasing a word just appended to a list not containing it restores the list. -/
theorem erase_append_self (m : List String) (w : String) (hm : w ∉ m) :
    (m ++ [w]).erase w = m := by
  rw [List.erase_append_right [w] hm, List.erase_cons_head, List.append_nil]

/-! ### Helper lemmas about `recordAttempt` -/

theorem counters_unchanged_of_mem (p : ProgressState) (w : String) (b : Bool)
    (hw : w ∈ p.reviewed) :
    (recordAttempt p w b).correct = p.correct ∧ (recordAttempt p w b).wrong = p.wrong := by
  cases b <;> simp [recordAttempt, hw]

theorem mem_reviewed_recordAttempt (p : ProgressState) (w : String) (b : Bool) :
    w ∈ (recordAttempt p w b).reviewed := by
  by_cases hm : w ∈ p.reviewed <;> cases b <;> simp [recordAttempt, hm]

theorem reviewed_mono (p : ProgressState) (w v : String) (b : Bool)
    (hw : w ∈ p.reviewed) : w ∈ (recordAttempt p v b).reviewed := by
  have hrev : (recordAttempt p v b).reviewed =
      if v ∈ p.reviewed then p.reviewed else v :: p.reviewed := by
    cases b <;> rfl
  rw [hrev]
  split
  · exact hw
  · exact List.mem_cons_of_mem v hw

theorem mistakes_recordAttempt_nodup (p : ProgressState) (w : String) (b : Bool)
    (h : p.mistakes.Nodup) : (recordAttempt p w b).mistakes.Nodup := by
  cases b
  · have hmis : (recordAttempt p w false).mistakes =
        if w ∈ p.mistakes then p.mistakes else p.mistakes ++ [w] := rfl
    rw [hmis]
    split
    · exact h
    · rename_i hm
      rw [List.nodup_append]
      refine ⟨h, List.nodup_singleton w, ?_⟩
      intro a ha hb
      rw [List.mem_singleton] at hb
      subst hb
      exact hm ha
  · have hmis : (recordAttempt p w true).mistakes =
        if w ∈ p.mistakes then p.mistakes.erase w else p.mistakes := rfl
    rw [hmis]
    split
    · exact List.Nodup.erase w h
    · exact h

theorem foldl_attempts_nodup : ∀ (ops : List (String × Bool)) (p : ProgressState),
    p.mistakes.Nodup →
    ((ops.foldl (fun q ab => recordAttempt q ab.1 ab.2) p).mistakes).Nodup := by
  intro ops
  induction ops with
  | nil => intro p h; exact h
  | cons ab rest ih =>
    intro p h
    exact ih (recordAttempt p ab.1 ab.2) (mistakes_recordAttempt_nodup p ab.1 ab.2 h)

theorem applyOp_inv (p : ProgressState) (op : SessionOp)
    (h1 : p.reviewed.Nodup) (h2 : p.correct + p.wrong = (p.reviewed.length : Int)) :
    (applyOp p op).reviewed.Nodup ∧
    (applyOp p op).correct + (applyOp p op).wrong = ((applyOp p op).reviewed.length : Int) := by
  cases op with
  | attempt w b =>
    by_cases hm : w ∈ p.reviewed
    · cases b <;> simp [applyOp, recordAttempt, hm, h1, h2]
    · cases b <;> simp [applyOp, recordAttempt, hm, List.nodup_cons, h1] <;> omega
  | override w ft =>
    cases ft <;> simp [applyOp, markAsCorrect, h1] <;> omega

theorem foldl_ops_inv : ∀ (ops : List SessionOp) (p : ProgressState),
    p.reviewed.Nodup → p.correct + p.wrong = (p.reviewed.length : Int) →
    (ops.foldl applyOp p).reviewed.Nodup ∧
    (ops.foldl applyOp p).correct + (ops.foldl applyOp p).wrong =
      ((ops.foldl applyOp p).reviewed.length : Int) := by
  intro ops
  induction ops with
  | nil => intro p h1 h2; exact ⟨h1, h2⟩
  | cons op rest ih =>
    intro p h1 h2
    have h := applyOp_inv p op h1 h2
    exact ih (applyOp p op) h.1 h.2

/-! ### The claims -/

/-- Claim C1 (amended): for every entry that actually reaches the strict
noun branch — its pos starts with "noun" and contains neither "adjective"
nor "adverb" as a substring — and whose plural field, after lower-casing
and trimming, is neither empty nor the sentinel "—", `check_answer`
returns true iff both the token sequence of gender-plus-word and the
token sequence of the plural occur as contiguous runs inside the
whitespace-token sequence of the lower-cased, trimmed transcript. -/
theorem check_noun_with_plural (e : VocabEntry) (t : String)
    (h1 : startsWithL e.pos.data "noun".data = true)
    (h2 : containsSub e.pos "adjective" = false)
    (h3 : containsSub e.pos "adverb" = false)
    (h4 : pyLowerStrip e.plural ≠ [])
    (h5 : pyLowerStrip e.plural ≠ "—".data) :
    check_answer e t = true ↔
      isContigRun (singularTokens e) (tokenize t) ∧
      isContigRun (pluralTokens e) (tokenize t) := by
  have hv : ¬ (e.pos = "verb" ∨ e.pos = "reflexive verb") := by
    rintro (h | h) <;> rw [h] at h1 <;> exact absurd h1 (by decide)
  have hp : ¬ (pyLowerStrip e.plural = [] ∨ pyLowerStrip e.plural = "—".data) := by
    rintro (hx | hx)
    · exact h4 hx
    · exact h5 hx
  unfold check_answer
  rw [if_neg hv, h2, h3]
  rw [if_neg (by simp : ¬ ((false || false) = true))]
  rw [h1, if_neg (by simp : ¬ (true = false))]
  rw [if_neg hp, if_neg h4]
  rw [Bool.and_eq_true, slidingMatch_iff, slidingMatch_iff]

/-- Witness for claim C1, at the spec's own example entry and transcript. -/
theorem check_noun_with_plural_witness :
    (startsWithL ("noun" : String).data "noun".data = true ∧
     containsSub "noun" "adjective" = false ∧
     containsSub "noun" "adverb" = false ∧
     pyLowerStrip "Tische" ≠ [] ∧
     pyLowerStrip "Tische" ≠ "—".data) ∧
    (check_answer ⟨"Tisch", "noun", "der", "Tische"⟩ "ich sehe der tisch und die tische" = true ↔
      isContigRun (singularTokens ⟨"Tisch", "noun", "der", "Tische"⟩)
        (tokenize "ich sehe der tisch und die tische") ∧
      isContigRun (pluralTokens ⟨"Tisch", "noun", "der", "Tische"⟩)
        (tokenize "ich sehe der tisch und die tische")) :=
  ⟨⟨by decide, by decide, by decide, by decide, by decide⟩,
   check_noun_with_plural ⟨"Tisch", "noun", "der", "Tische"⟩
     "ich sehe der tisch und die tische"
     (by decide) (by decide) (by decide) (by decide) (by decide)⟩

/-- Counterexample to claim C1 as stated: the pos "noun adverb" starts
with "noun" and the plural "weisen" is neither empty nor "—", yet the
transcript "weise" is accepted (the adjective/adverb branch fires first)
although the singular phrase "die weise" is not a contiguous token run
of the transcript. -/
theorem check_noun_pos_quirk :
    check_answer ⟨"weise", "noun adverb", "die", "weisen"⟩ "weise" = true ∧
    ¬ isContigRun (singularTokens ⟨"weise", "noun adverb", "die", "weisen"⟩)
        (tokenize "weise") := by
  refine ⟨by decide, fun h => ?_⟩
  have hsm := (slidingMatch_iff (tokenize "weise")
    (singularTokens ⟨"weise", "noun adverb", "die", "weisen"⟩)).mpr h
  exact absurd hsm (by decide)

/-- Claim C2: `recordAttempt` bumps a counter only when the word is not
yet in `reviewed` at the time of the attempt; a second attempt on the
same word, with any correctness value, leaves both counters unchanged,
and membership in `reviewed` is never lost, so each word contributes at
most one increment across the whole session. -/
theorem recordAttempt_first_time_only :
    (∀ (p : ProgressState) (w : String) (b : Bool), w ∈ p.reviewed →
      (recordAttempt p w b).correct = p.correct ∧ (recordAttempt p w b).wrong = p.wrong) ∧
    (∀ (p : ProgressState) (w : String) (b1 b2 : Bool),
      (recordAttempt (recordAttempt p w b1) w b2).correct = (recordAttempt p w b1).correct ∧
      (recordAttempt (recordAttempt p w b1) w b2).wrong = (recordAttempt p w b1).wrong) ∧
    (∀ (p : ProgressState) (w v : String) (b : Bool), w ∈ p.reviewed →
      w ∈ (recordAttempt p v b).reviewed) :=
  ⟨counters_unchanged_of_mem,
   fun p w b1 b2 =>
     counters_unchanged_of_mem (recordAttempt p w b1) w b2 (mem_reviewed_recordAttempt p w b1),
   reviewed_mono⟩

/-- Witness for claim C2: a wrong attempt on "haus" followed by a
correct one changes neither counter the second time. -/
theorem recordAttempt_first_time_only_witness :
    ("haus" ∈ (recordAttempt ProgressState.init "haus" false).reviewed) ∧
    ((recordAttempt (recordAttempt ProgressState.init "haus" false) "haus" true).correct =
        (recordAttempt ProgressState.init "haus" false).correct ∧
      (recordAttempt (recordAttempt ProgressState.init "haus" false) "haus" true).wrong =
        (recordAttempt ProgressState.init "haus" false).wrong) :=
  ⟨by decide,
   recordAttempt_first_time_only.1 (recordAttempt ProgressState.init "haus" false)
     "haus" true (by decide)⟩

/-- Claim C3: in Review-Mistakes mode, for the word at the front of the
queue, a correct attempt removes it (and, when the queue has no
duplicates, it is gone for good), an incorrect attempt moves it to the
back leaving the others' relative order unchanged, and on a singleton
queue an incorrect attempt leaves the queue unchanged. -/
theorem review_rotation :
    (∀ (w : String) (rest : List String), reviewQueueStep (w :: rest) w true = rest) ∧
    (∀ (w : String) (rest : List String),
        reviewQueueStep (w :: rest) w false = rest ++ [w]) ∧
    (∀ w : String, reviewQueueStep [w] w false = [w]) ∧
    (∀ (w : String) (rest : List String), w ∉ rest →
        w ∉ reviewQueueStep (w :: rest) w true) := by
  have hstep : ∀ (w : String) (rest : List String),
      reviewQueueStep (w :: rest) w true = rest := by
    intro w rest
    simp [reviewQueueStep]
  refine ⟨hstep, ?_, ?_, ?_⟩
  · intro w rest
    simp [reviewQueueStep]
  · intro w
    simp [reviewQueueStep]
  · intro w rest hw
    rw [hstep w rest]
    exact hw

/-- Witness for claim C3 at a concrete two-element queue. -/
theorem review_rotation_witness :
    ("ast" ∉ (["baum"] : List String)) ∧
    "ast" ∉ reviewQueueStep ["ast", "baum"] "ast" true :=
  ⟨by decide, review_rotation.2.2.2 "ast" ["baum"] (by decide)⟩

/-- Claim C4: for a verb or reflexive verb, `check_answer` returns true
iff every whitespace-separated part of the entry's word occurs as a
standalone token somewhere in the transcript's token sequence, in any
order and not necessarily contiguously. -/
theorem verb_all_parts (e : VocabEntry) (t : String)
    (h : e.pos = "verb" ∨ e.pos = "reflexive verb") :
    check_answer e t = true ↔ ∀ p ∈ wordParts e, p ∈ tokenize t := by
  unfold check_answer
  rw [if_pos h, List.all_eq_true]
  simp only [decide_eq_true_eq]

/-- Witness for claim C4: "sich freuen" needs both parts — the
transcript "freuen" alone is rejected, and the characterization holds at
a transcript containing both parts among fillers. -/
theorem verb_all_parts_witness :
    ((("reflexive verb" : String) = "verb" ∨ ("reflexive verb" : String) = "reflexive verb") ∧
      check_answer ⟨"sich freuen", "reflexive verb", "", ""⟩ "freuen" = false) ∧
    (check_answer ⟨"sich freuen", "reflexive verb", "", ""⟩ "sich freuen macht freude" = true ↔
      ∀ p ∈ wordParts ⟨"sich freuen", "reflexive verb", "", ""⟩,
        p ∈ tokenize "sich freuen macht freude") :=
  ⟨⟨Or.inr rfl, by decide⟩,
   verb_all_parts ⟨"sich freuen", "reflexive verb", "", ""⟩ "sich freuen macht freude"
     (Or.inr rfl)⟩

/-- Claim C5 (amended): for every entry that actually reaches the strict
noun branch — its pos starts with "noun" and contains neither
"adjective" nor "adverb" as a substring — whose plural, after
lower-casing and trimming, is empty or the sentinel "—", `check_answer`
returns true iff the singular contiguous-run check on gender-plus-word
succeeds; no plural match is required. -/
theorem check_noun_uncountable (e : VocabEntry) (t : String)
    (h1 : startsWithL e.pos.data "noun".data = true)
    (h2 : containsSub e.pos "adjective" = false)
    (h3 : containsSub e.pos "adverb" = false)
    (h4 : pyLowerStrip e.plural = [] ∨ pyLowerStrip e.plural = "—".data) :
    check_answer e t = true ↔ isContigRun (singularTokens e) (tokenize t) := by
  have hv : ¬ (e.pos = "verb" ∨ e.pos = "reflexive verb") := by
    rintro (h | h) <;> rw [h] at h1 <;> exact absurd h1 (by decide)
  unfold check_answer
  rw [if_neg hv, h2, h3]
  rw [if_neg (by simp : ¬ ((false || false) = true))]
  rw [h1, if_neg (by simp : ¬ (true = false))]
  rw [if_pos h4, slidingMatch_iff]

/-- Witness for claim C5, at the spec's own uncountable-noun example. -/
theorem check_noun_uncountable_witness :
    (startsWithL ("noun(uncountable)" : String).data "noun".data = true ∧
     containsSub "noun(uncountable)" "adjective" = false ∧
     containsSub "noun(uncountable)" "adverb" = false ∧
     (pyLowerStrip "" = ([] : List Char) ∨ pyLowerStrip "" = "—".data)) ∧
    (check_answer ⟨"Regen", "noun(uncountable)", "der", ""⟩ "der regen fällt" = true ↔
      isContigRun (singularTokens ⟨"Regen", "noun(uncountable)", "der", ""⟩)
        (tokenize "der regen fällt")) :=
  ⟨⟨by decide, by decide, by decide, Or.inl (by decide)⟩,
   check_noun_uncountable ⟨"Regen", "noun(uncountable)", "der", ""⟩ "der regen fällt"
     (by decide) (by decide) (by decide) (Or.inl (by decide))⟩

/-- Counterexample to claim C5 as stated: the pos "noun adverb" starts
with "noun" and the plural is empty, yet the transcript "gern" is
accepted by the adjective/adverb branch although the singular phrase
"das gern" is not a contiguous token run of the transcript. -/
theorem check_uncountable_pos_quirk :
    check_answer ⟨"gern", "noun adverb", "das", ""⟩ "gern" = true ∧
    ¬ isContigRun (singularTokens ⟨"gern", "noun adverb", "das", ""⟩)
        (tokenize "gern") := by
  refine ⟨by decide, fun h => ?_⟩
  have hsm := (slidingMatch_iff (tokenize "gern")
    (singularTokens ⟨"gern", "noun adverb", "das", ""⟩)).mpr h
  exact absurd hsm (by decide)

/-- Claim C6: evaluation of `pick_new_word` at the failing input.  In
review mode with a non-empty queue whose front word is not in the
filtered group (reachable by recording a mistake under one set filter
and entering review mode under another), the code raises StopIteration
instead of returning a word or the "no next word" value. -/
theorem pick_new_word_missing_front_raises :
    pick_new_word Mode.review 0 [⟨"Tisch", "noun", "der", "Tische"⟩] [] ["Haus"] =
      Except.error () := by
  rfl

/-- Claim C7: the mistakes collection has set semantics — along every
sequence of attempts from the zeroed state it never contains duplicates;
an incorrect attempt appends the word exactly when it is absent, and a
correct attempt erases it when present and is a no-op when absent. -/
theorem mistakes_set_semantics :
    (∀ ops : List (String × Bool), (runAttempts ops).mistakes.Nodup) ∧
    (∀ (p : ProgressState) (w : String), w ∈ p.mistakes →
        (recordAttempt p w false).mistakes = p.mistakes) ∧
    (∀ (p : ProgressState) (w : String), w ∉ p.mistakes →
        (recordAttempt p w false).mistakes = p.mistakes ++ [w]) ∧
    (∀ (p : ProgressState) (w : String), w ∈ p.mistakes →
        (recordAttempt p w true).mistakes = p.mistakes.erase w) ∧
    (∀ (p : ProgressState) (w : String), w ∉ p.mistakes →
        (recordAttempt p w true).mistakes = p.mistakes) := by
  refine ⟨?_, ?_, ?_, ?_, ?_⟩
  · intro ops
    exact foldl_attempts_nodup ops ProgressState.init List.nodup_nil
  · intro p w hw
    show (if w ∈ p.mistakes then p.mistakes else p.mistakes ++ [w]) = p.mistakes
    rw [if_pos hw]
  · intro p w hw
    show (if w ∈ p.mistakes then p.mistakes else p.mistakes ++ [w]) = p.mistakes ++ [w]
    rw [if_neg hw]
  · intro p w hw
    show (if w ∈ p.mistakes then p.mistakes.erase w else p.mistakes) = p.mistakes.erase w
    rw [if_pos hw]
  · intro p w hw
    show (if w ∈ p.mistakes then p.mistakes.erase w else p.mistakes) = p.mistakes
    rw [if_neg hw]

/-- Witness for claim C7 at a concrete one-mistake state. -/
theorem mistakes_set_semantics_witness :
    (("haus" ∈ (⟨[], 0, 0, ["haus"]⟩ : ProgressState).mistakes) ∧
      (recordAttempt ⟨[], 0, 0, ["haus"]⟩ "haus" false).mistakes =
        (⟨[], 0, 0, ["haus"]⟩ : ProgressState).mistakes) ∧
    (("baum" ∉ (⟨[], 0, 0, ["haus"]⟩ : ProgressState).mistakes) ∧
      (recordAttempt ⟨[], 0, 0, ["haus"]⟩ "baum" false).mistakes =
        (⟨[], 0, 0, ["haus"]⟩ : ProgressState).mistakes ++ ["baum"]) ∧
    (("haus" ∈ (⟨[], 0, 0, ["haus"]⟩ : ProgressState).mistakes) ∧
      (recordAttempt ⟨[], 0, 0, ["haus"]⟩ "haus" true).mistakes =
        (⟨[], 0, 0, ["haus"]⟩ : ProgressState).mistakes.erase "haus") ∧
    (("baum" ∉ (⟨[], 0, 0, ["haus"]⟩ : ProgressState).mistakes) ∧
      (recordAttempt ⟨[], 0, 0, ["haus"]⟩ "baum" true).mistakes =
        (⟨[], 0, 0, ["haus"]⟩ : ProgressState).mistakes) :=
  ⟨⟨by decide, mistakes_set_semantics.2.1 ⟨[], 0, 0, ["haus"]⟩ "haus" (by decide)⟩,
   ⟨by decide, mistakes_set_semantics.2.2.1 ⟨[], 0, 0, ["haus"]⟩ "baum" (by decide)⟩,
   ⟨by decide, mistakes_set_semantics.2.2.2.1 ⟨[], 0, 0, ["haus"]⟩ "haus" (by decide)⟩,
   ⟨by decide, mistakes_set_semantics.2.2.2.2 ⟨[], 0, 0, ["haus"]⟩ "baum" (by decide)⟩⟩

/-- Claim C8 (amended): when the transcript tokenizes to no tokens,
`check_answer` returns true iff the expected tokens are themselves
empty: either a verb/reflexive-verb entry whose word yields no parts, or
an entry reaching the noun branch whose singular phrase yields no tokens
and whose plural is empty or the sentinel "—"; every entry with a
non-empty expected phrase is rejected. -/
theorem check_empty_transcript (e : VocabEntry) (t : String)
    (ht : tokenize t = []) :
    check_answer e t = true ↔
      ((e.pos = "verb" ∨ e.pos = "reflexive verb") ∧ wordParts e = []) ∨
      (¬ (e.pos = "verb" ∨ e.pos = "reflexive verb") ∧
       containsSub e.pos "adjective" = false ∧
       containsSub e.pos "adverb" = false ∧
       startsWithL e.pos.data "noun".data = true ∧
       singularTokens e = [] ∧
       (pyLowerStrip e.plural = [] ∨ pyLowerStrip e.plural = "—".data)) := by
  unfold check_answer
  rw [ht]
  by_cases hv : e.pos = "verb" ∨ e.pos = "reflexive verb"
  · rw [if_pos hv]
    constructor
    · intro h
      left
      refine ⟨hv, List.eq_nil_iff_forall_not_mem.mpr ?_⟩
      intro p hp
      have h2 := List.all_eq_true.mp h p hp
      rw [decide_eq_true_eq] at h2
      exact absurd h2 (List.not_mem_nil p)
    · rintro (⟨-, hnil⟩ | ⟨hnv, -⟩)
      · rw [hnil]
        rfl
      · exact absurd hv hnv
  · rw [if_neg hv]
    by_cases ha : (containsSub e.pos "adjective" || containsSub e.pos "adverb") = true
    · rw [if_pos ha]
      simp only [decide_eq_true_eq]
      constructor
      · intro h
        exact absurd h (List.not_mem_nil _)
      · rintro (⟨hvv, -⟩ | ⟨-, h2, h3, -⟩)
        · exact absurd hvv hv
        · rw [h2, h3] at ha
          exact absurd ha (by decide)
    · rw [if_neg ha]
      simp only [Bool.or_eq_true, not_or, Bool.not_eq_true] at ha
      by_cases hn : startsWithL e.pos.data "noun".data = false
      · rw [if_pos hn]
        simp only [decide_eq_true_eq]
        constructor
        · intro h
          exact absurd h (List.not_mem_nil _)
        · rintro (⟨hvv, -⟩ | ⟨-, -, -, hns, -⟩)
          · exact absurd hvv hv
          · rw [hns] at hn
            exact absurd hn (by decide)
      · rw [if_neg hn]
        have hn2 : startsWithL e.pos.data "noun".data = true := by
          cases hx : startsWithL e.pos.data "noun".data
          · exact absurd hx hn
          · rfl
        by_cases hp : pyLowerStrip e.plural = [] ∨ pyLowerStrip e.plural = "—".data
        · rw [if_pos hp, slidingMatch_nil_iff]
          constructor
          · intro h
            exact Or.inr ⟨hv, ha.1, ha.2, hn2, h, hp⟩
          · rintro (⟨hvv, -⟩ | ⟨-, -, -, -, hsing, -⟩)
            · exact absurd hvv hv
            · exact hsing
        · rw [if_neg hp]
          have hne : pyLowerStrip e.plural ≠ [] := fun hx => hp (Or.inl hx)
          rw [if_neg hne]
          have hplne : pluralTokens e ≠ [] := by
            unfold pluralTokens pyLowerStrip
            unfold pyLowerStrip at hne
            exact splitWS_trimL_ne_nil _ hne
          constructor
          · intro h
            rw [Bool.and_eq_true] at h
            exact absurd ((slidingMatch_nil_iff (pluralTokens e)).mp h.2) hplne
          · rintro (⟨hvv, -⟩ | ⟨-, -, -, -, -, hpp⟩)
            · exact absurd hvv hv
            · exact absurd hpp hp

/-- Witness for claim C8: a whitespace-only transcript against an
ordinary noun entry, where the characterization reduces to false. -/
theorem check_empty_transcript_witness :
    tokenize "   " = [] ∧
    (check_answer ⟨"Tisch", "noun", "der", "Tische"⟩ "   " = true ↔
      (((VocabEntry.mk "Tisch" "noun" "der" "Tische").pos = "verb" ∨
        (VocabEntry.mk "Tisch" "noun" "der" "Tische").pos = "reflexive verb") ∧
        wordParts ⟨"Tisch", "noun", "der", "Tische"⟩ = []) ∨
      (¬ ((VocabEntry.mk "Tisch" "noun" "der" "Tische").pos = "verb" ∨
        (VocabEntry.mk "Tisch" "noun" "der" "Tische").pos = "reflexive verb") ∧
       containsSub (VocabEntry.mk "Tisch" "noun" "der" "Tische").pos "adjective" = false ∧
       containsSub (VocabEntry.mk "Tisch" "noun" "der" "Tische").pos "adverb" = false ∧
       startsWithL (VocabEntry.mk "Tisch" "noun" "der" "Tische").pos.data "noun".data = true ∧
       singularTokens ⟨"Tisch", "noun", "der", "Tische"⟩ = [] ∧
       (pyLowerStrip (VocabEntry.mk "Tisch" "noun" "der" "Tische").plural = [] ∨
        pyLowerStrip (VocabEntry.mk "Tisch" "noun" "der" "Tische").plural = "—".data))) :=
  ⟨by decide, check_empty_transcript ⟨"Tisch", "noun", "der", "Tische"⟩ "   " (by decide)⟩

/-- Counterexample to claim C8 as stated: on the empty transcript a verb
entry with empty word is accepted (its part list is empty, so the
conjunctive test is vacuously true), although its pos does not start
with "noun", contradicting "returns true only in the degenerate case of
a noun entry". -/
theorem check_empty_verb_quirk :
    check_answer ⟨"", "verb", "", ""⟩ "" = true ∧
    startsWithL ("verb" : String).data "noun".data = false :=
  ⟨by decide, by decide⟩

/-- Claim C9: every state reachable from the zeroed initial state by any
sequence of attempts and "Mark as Correct" overrides satisfies
correct + wrong = number of reviewed words (and the reviewed list stays
duplicate-free, so its length is the set's cardinality). -/
theorem counters_match_reviewed (ops : List SessionOp) :
    (runOps ops).correct + (runOps ops).wrong = ((runOps ops).reviewed.length : Int) ∧
    (runOps ops).reviewed.Nodup := by
  have h := foldl_ops_inv ops ProgressState.init List.nodup_nil (by decide)
  exact ⟨h.2, h.1⟩

/-- Claim C10: recording an incorrect attempt and then applying the
"Mark as Correct (ASR error)" override, with the stored first-time flag
of the attempt, yields exactly the state of recording a correct attempt;
on a duplicate-free review queue the rotation followed by the override's
removal equals the removal a correct attempt performs, the word is
absent from the resulting queue, and it is present in `reviewed`. -/
theorem override_matches_correct (p : ProgressState) (w : String) (q : List String)
    (hq : q.Nodup) :
    markAsCorrect (recordAttempt p w false) w (decide (w ∉ p.reviewed)) =
      recordAttempt p w true ∧
    (reviewQueueStep q w false).erase w = reviewQueueStep q w true ∧
    w ∉ reviewQueueStep q w true ∧
    w ∈ (recordAttempt p w true).reviewed := by
  refine ⟨?_, ?_, ?_, mem_reviewed_recordAttempt p w true⟩
  · by_cases hr : w ∈ p.reviewed
    · by_cases hm : w ∈ p.mistakes <;>
        simp [recordAttempt, markAsCorrect, hr, hm, erase_append_self]
    · by_cases hm : w ∈ p.mistakes <;>
        simp [recordAttempt, markAsCorrect, hr, hm, erase_append_self,
          Int.add_sub_cancel]
  · by_cases hwq : w ∈ q
    · have hnm : w ∉ q.erase w := List.Nodup.not_mem_erase hq
      simp [reviewQueueStep, hwq, erase_append_self (q.erase w) w hnm]
    · simp [reviewQueueStep, hwq, List.erase_of_not_mem hwq]
  · by_cases hwq : w ∈ q
    · have hred : reviewQueueStep q w true = q.erase w := by
        simp [reviewQueueStep, hwq]
      rw [hred]
      exact List.Nodup.not_mem_erase hq
    · have hred : reviewQueueStep q w true = q := by
        simp [reviewQueueStep, hwq]
      rw [hred]
      exact hwq

/-- Witness for claim C10 at the initial state and a two-element queue. -/
theorem override_matches_correct_witness :
    (["ast", "baum"] : List String).Nodup ∧
    (markAsCorrect (recordAttempt ProgressState.init "ast" false) "ast"
        (decide ("ast" ∉ ProgressState.init.reviewed)) =
      recordAttempt ProgressState.init "ast" true ∧
    (reviewQueueStep ["ast", "baum"] "ast" false).erase "ast" =
      reviewQueueStep ["ast", "baum"] "ast" true ∧
    "ast" ∉ reviewQueueStep ["ast", "baum"] "ast" true ∧
    "ast" ∈ (recordAttempt ProgressState.init "ast" true).reviewed) :=
  ⟨by decide,
   override_matches_correct ProgressState.init "ast" ["ast", "baum"] (by decide)⟩

end GermanVocab
